import Mathlib

/-!
Shallow embedding of the search-engine backend: text normalisation and the
content-addressed embedding cache (`getVector` in `index.js` and
`getVectorWithCache` in the benchmark script), the client-side hybrid ranker
(`cosineSimilarity` and the `serverResults` pipeline), the search and
ingestion handlers, the remote ranking call they build, and the
prompt-listing projection.  JavaScript numbers are modelled as reals,
vectors as lists of reals, and the persistent `search_cache` table as an
association list threaded explicitly through each operation, so that reads
and writes of the cache are visible in the result.
-/

namespace SearchEngine

/-! ## Text normalisation and the cache key -/

/-- Normalisation applied before hashing and embedding:
`text.trim().toLowerCase()`, modelled on the character list (trim removes
surrounding whitespace, then every character is lowercased). -/
def normalize (t : String) : String :=
  String.mk (((t.data.dropWhile Char.isWhitespace).reverse.dropWhile
      Char.isWhitespace).reverse.map Char.toLower)

/-- Modelled from the spec: the content addresser digests the normalised text
with an external library hash (`crypto.createHash('md5').digest('hex')`,
code that is not part of this repository).  The spec only requires a
deterministic function of the normalised text, so the digest is modelled as
the identity map on strings. -/
def md5Hex (s : String) : String := s

/-! ## A small numeric-array JSON decoder

`JSON.parse` is an external library function; the repository applies it to
cached embedding values that may arrive as encoded strings such as
`"[1,2,3]"`.  It is modelled here as an executable decoder for bracketed,
comma-separated integer lists, failure being `none` (a thrown exception at
the call sites). -/

/-- Split a character list at every comma. -/
def splitCommas : List Char → List Char → List (List Char)
  | [], acc => [acc.reverse]
  | c :: rest, acc =>
    if c = ',' then acc.reverse :: splitCommas rest []
    else splitCommas rest (c :: acc)

/-- Decimal digits to a natural number; `none` on a non-digit or on an
empty list. -/
def digitsToNat : List Char → Option ℕ
  | [] => none
  | cs => cs.foldl (fun acc c =>
      match acc with
      | none => none
      | some n => if c.isDigit then some (n * 10 + (c.toNat - 48)) else none)
      (some 0)

/-- An optionally negated decimal integer. -/
def parseIntChars (cs : List Char) : Option ℤ :=
  match cs with
  | '-' :: rest => (digitsToNat rest).map (fun n => -(n : ℤ))
  | _ => (digitsToNat cs).map (fun n => (n : ℤ))

/-- Decode every comma-separated field, failing if any field fails. -/
def parseAllInts : List (List Char) → Option (List ℤ)
  | [] => some []
  | c :: cs =>
    match parseIntChars c, parseAllInts cs with
    | some v, some vs => some (v :: vs)
    | _, _ => none

/-- Modelled from the spec: `JSON.parse` applied to a string-encoded numeric
vector (an external library function).  Accepts `"[n1,n2,...]"` with integer
entries and returns the vector; every other string is a parse failure. -/
def jsonNums (s : String) : Option (List ℝ) :=
  match s.data with
  | '[' :: rest =>
    match rest.reverse with
    | ']' :: mid =>
      if mid = [] then some []
      else (parseAllInts (splitCommas mid.reverse [])).map
        (fun l => l.map (fun n => ((n : ℤ) : ℝ)))
    | _ => none
  | _ => none

/-! ## The `search_cache` store -/

/-- A value stored in an embedding column: either a native vector or a
string encoding of one (Postgres may return either, which is why the code
guards with `typeof p.embedding === 'string'`). -/
inductive EmbStored where
  | vec : List ℝ → EmbStored
  | str : String → EmbStored

/-- A row of the `search_cache` table (keyed separately by its id):
`{ query_text, embedding }`. -/
structure CacheRow where
  query_text : String
  embedding : EmbStored

/-- The `search_cache` table: an association list from the hash id to the
row. -/
def Store : Type := List (String × CacheRow)

/-- Lookup by id, first match wins (ids are unique under `upsert`). -/
def slookup : Store → String → Option CacheRow
  | [], _ => none
  | (k, r) :: rest, key => if k = key then some r else slookup rest key

/-- Supabase `upsert`: replace the row with this id if present, append it
otherwise. -/
def upsert : Store → String → CacheRow → Store
  | [], key, row => [(key, row)]
  | (k, r) :: rest, key, row =>
    if k = key then (key, row) :: rest else (k, r) :: upsert rest key row

/-- Result of `getVector` together with the store it leaves behind and
whether the embedding provider was called (the two observable side
channels of the helper). -/
structure GetVecOut where
  embedding : EmbStored
  store : Store
  providerCalled : Bool

/-- The core helper `getVector(text, useCache)` of `index.js`: normalise,
hash, optionally consult the cache (returning the stored value unchanged on
a hit), otherwise call the provider on the normalised text, and optionally
upsert the fresh embedding under the hash.  The provider
(`model.embedContent`, 768 dimensions) is an external service, passed as a
function. -/
def getVector (provider : String → List ℝ) (text : String) (useCache : Bool)
    (store : Store) : GetVecOut :=
  let cleanText := normalize text
  let hash := md5Hex cleanText
  if useCache then
    match slookup store hash with
    | some cached => ⟨cached.embedding, store, false⟩
    | none =>
      let embedding := provider cleanText
      ⟨.vec embedding, upsert store hash ⟨cleanText, .vec embedding⟩, true⟩
  else
    ⟨.vec (provider cleanText), store, true⟩

/-- The ingestion path of `POST /api/prompts`: the embedding is computed
with `getVector(text, false)` before the prompt row is inserted into the
`prompts` table (a different table, not modelled as part of the search
cache). -/
def ingestEmbedding (provider : String → List ℝ) (text : String)
    (store : Store) : GetVecOut :=
  getVector provider text false store

/-- A parse failure raised by `JSON.parse` (an uncaught exception in the
benchmark script). -/
inductive JsonError where
  | parse : JsonError

/-- Result of the benchmark's `getVectorWithCache` (the measured time is not
modelled). -/
structure WithCacheOut where
  embedding : List ℝ
  cacheHit : Bool

/-- `getVectorWithCache(text)` of the benchmark script: hash the normalised
text, consult `search_cache`; on a hit, `JSON.parse` the stored embedding if
it is a string and return it as a hit; on a miss, embed the raw `text`
(note: not the normalised text) and upsert `{ id, query_text: text,
embedding }`. -/
def getVectorWithCache (provider : String → List ℝ) (text : String)
    (store : Store) : Except JsonError (WithCacheOut × Store) :=
  let hash := md5Hex (normalize text)
  match slookup store hash with
  | some cached =>
    match cached.embedding with
    | .str s =>
      match jsonNums s with
      | some vector => .ok (⟨vector, true⟩, store)
      | none => .error .parse
    | .vec vector => .ok (⟨vector, true⟩, store)
  | none =>
    let embedding := provider text
    .ok (⟨embedding, false⟩, upsert store hash ⟨text, .vec embedding⟩)

/-! ## The client-side hybrid ranker -/

/-- `vecA.reduce((sum, a) => sum + a * a, 0)`: the squared magnitude
accumulator used for both vectors. -/
def sumSq (l : List ℝ) : ℝ := l.foldl (fun s a => s + a * a) 0

/-- `vecA.reduce((sum, a, i) => sum + a * (vecB[i] || 0), 0)`: the dot
product driven by the first vector, a missing component of the second
being read as 0. -/
def dotJs : List ℝ → List ℝ → ℝ
  | [], _ => 0
  | a :: as, bs => a * bs.headD 0 + dotJs as bs.tail

/-- A JavaScript value as `cosineSimilarity` sees it: an array of numbers
or anything else (`Array.isArray` is the only test applied). -/
inductive JsVal where
  | arr : List ℝ → JsVal
  | notArr : JsVal

/-- `cosineSimilarity(vecA, vecB)` of the benchmark script: 0 unless both
arguments are arrays; 0 if either magnitude is 0; the normalised dot
product otherwise. -/
noncomputable def cosineSimilarity : JsVal → JsVal → ℝ
  | .arr vecA, .arr vecB =>
    if Real.sqrt (sumSq vecA) = 0 ∨ Real.sqrt (sumSq vecB) = 0 then 0
    else dotJs vecA vecB / (Real.sqrt (sumSq vecA) * Real.sqrt (sumSq vecB))
  | _, _ => 0

/-- Cosine similarity of two vectors already known to be arrays. -/
noncomputable def cosArr (a b : List ℝ) : ℝ :=
  cosineSimilarity (.arr a) (.arr b)

/-- A row of the `prompts` table as the benchmark selects it:
`id, content, embedding, votes, quality_score`. -/
structure PromptRow where
  id : ℕ
  content : String
  embedding : EmbStored
  votes : ℝ
  quality_score : ℝ

/-- A candidate after the `typeof === 'string' ? JSON.parse : ...` step:
its embedding is a plain vector. -/
structure DecodedRow where
  id : ℕ
  emb : List ℝ
  votes : ℝ
  quality_score : ℝ

/-- The vector-decoding step applied to each candidate's embedding field. -/
def decodeEmb : EmbStored → Option (List ℝ)
  | .vec v => some v
  | .str s => jsonNums s

/-- Decode every candidate row in order, failing at the first row whose
string embedding does not parse (the thrown exception in the script). -/
def decodeRows : List PromptRow → Option (List DecodedRow)
  | [] => some []
  | p :: ps =>
    match decodeEmb p.embedding with
    | none => none
    | some v => (decodeRows ps).map
        (fun rest => ⟨p.id, v, p.votes, p.quality_score⟩ :: rest)

/-- One entry of the ranked result: `{ id: p.id, rank }`. -/
structure Ranked where
  id : ℕ
  rank : ℝ

/-- The order the comparator `(a, b) => b.rank - a.rank` sorts by:
`a` may come before `b` exactly when `b.rank ≤ a.rank`. -/
def rankGe (a b : Ranked) : Prop := b.rank ≤ a.rank

noncomputable instance : DecidableRel rankGe :=
  fun a b => inferInstanceAs (Decidable (b.rank ≤ a.rank))

instance : IsTotal Ranked rankGe := ⟨fun a b => le_total b.rank a.rank⟩

instance : IsTrans Ranked rankGe := ⟨fun _ _ _ h1 h2 => le_trans h2 h1⟩

/-- The per-candidate score of the `serverResults` pipeline:
`rank = (sem * 0.7) + (meta * 0.3)` with `meta = (votes + quality_score) /
200.0`. -/
noncomputable def scoreRow (queryVec : List ℝ) (p : DecodedRow) : ℝ :=
  cosArr queryVec p.emb * 0.7 + ((p.votes + p.quality_score) / 200) * 0.3

/-- Score, sort descending by rank with a stable sort (ECMAScript sorts are
stable, so equal ranks keep their candidate order), truncate to `k`.  The
script always passes `k = 5` (`.slice(0, 5)`); the truncation bound is a
parameter here. -/
noncomputable def rankRows (queryVec : List ℝ) (rows : List DecodedRow)
    (k : ℕ) : List Ranked :=
  ((rows.map fun p => (⟨p.id, scoreRow queryVec p⟩ : Ranked)).insertionSort
      rankGe).take k

/-- The whole `serverResults` computation of the benchmark script: decode
every candidate's embedding, score, sort, `.slice(0, 5)`. -/
noncomputable def serverResults (queryVec : List ℝ)
    (prompts : List PromptRow) : Option (List Ranked) :=
  (decodeRows prompts).map (fun rows => rankRows queryVec rows 5)

/-! ## The remote ranking call built by `GET /api/search` -/

/-- Arguments the search handler hands to
`supabase.rpc('hybrid_search_prompts', ...)`. -/
structure RpcArgs where
  query_embedding : EmbStored
  alpha_weight : ℝ
  match_count : ℕ

/-- The argument object of `index.js`: the query vector, the caller's
`alpha` parsed as a float with destructuring default `0.5` when absent
(modelled as an optional real), and the constant `match_count: 5`. -/
def searchRpcArgs (queryVector : EmbStored) (alphaParam : Option ℝ) :
    RpcArgs :=
  ⟨queryVector, alphaParam.getD 0.5, 5⟩

/-- The `GET /api/search` handler: `if (!q) return 400` (absent or empty
string are the falsy strings), otherwise resolve the query vector through
the cache and build the remote ranking call.  `none` models the 400
response. -/
def searchHandler (provider : String → List ℝ) (q : Option String)
    (alphaParam : Option ℝ) (store : Store) : Option (RpcArgs × Store) :=
  match q with
  | none => none
  | some s =>
    if s = "" then none
    else
      let r := getVector provider s true store
      some (searchRpcArgs r.embedding alphaParam, r.store)

/-- Modelled from the spec: the database-side `hybrid_search_prompts`
function is not part of the repository.  Per the spec it scores each stored
prompt by `alpha * semantic + (1 - alpha) * metadata`, orders by score
descending and returns at most `match_count` results. -/
noncomputable def hybrid_search_prompts (query_embedding : List ℝ)
    (alpha_weight : ℝ) (match_count : ℕ) (table : List DecodedRow) :
    List Ranked :=
  ((table.map fun p => (⟨p.id,
      alpha_weight * cosArr query_embedding p.emb +
        (1 - alpha_weight) * ((p.votes + p.quality_score) / 200)⟩ :
    Ranked)).insertionSort rankGe).take match_count

/-! ## The prompt listing -/

/-- A row of the `prompts` table with every column the endpoints touch. -/
structure PromptRecord where
  id : ℕ
  description : String
  content : String
  category : String
  votes : ℝ
  quality_score : ℝ
  embedding : EmbStored
  created_at : ℕ

/-- The safe columns `GET /api/prompts` selects:
`id, description, category, votes, quality_score, created_at`. -/
structure SafeRow where
  id : ℕ
  description : String
  category : String
  votes : ℝ
  quality_score : ℝ
  created_at : ℕ

/-- Project a stored prompt onto the safe columns. -/
def projectSafe (r : PromptRecord) : SafeRow :=
  ⟨r.id, r.description, r.category, r.votes, r.quality_score, r.created_at⟩

/-- The `order('created_at', { ascending: false })` order: newest first. -/
def newestFirst (a b : SafeRow) : Prop := b.created_at ≤ a.created_at

instance : DecidableRel newestFirst :=
  fun a b => inferInstanceAs (Decidable (b.created_at ≤ a.created_at))

/-- The listing response `{ count, prompts }`. -/
structure ListResponse where
  count : ℕ
  prompts : List SafeRow

/-- `GET /api/prompts`: select the safe columns of every stored prompt,
newest first (the select-then-order of the database commutes with the
projection, since `created_at` is one of the selected columns). -/
def listPrompts (store : List PromptRecord) : ListResponse :=
  let data := (store.map projectSafe).insertionSort newestFirst
  ⟨data.length, data⟩

/-- The by-id fetch of the execute endpoint:
`select('content').eq('id', id).single()` — it reads the `content`
column. -/
def fetchContentById (store : List PromptRecord) (i : ℕ) : Option String :=
  (store.find? (fun r => r.id == i)).map PromptRecord.content

/-- Two stored prompts that agree on everything except possibly `content`
and `embedding`. -/
def eqExceptSecret (a b : PromptRecord) : Prop :=
  a.id = b.id ∧ a.description = b.description ∧ a.category = b.category ∧
  a.votes = b.votes ∧ a.quality_score = b.quality_score ∧
  a.created_at = b.created_at

/-! ## Spec-side definitions (for the refinement claims)

These follow the spec's words, to be compared with the definitions above
that were translated from the source. -/

/-- The spec's `dot(a,b)`: the sum of componentwise products. -/
def dotSpec (a b : List ℝ) : ℝ := (List.zipWith (· * ·) a b).sum

/-- The spec's Euclidean magnitude of a vector. -/
noncomputable def normSpec (a : List ℝ) : ℝ :=
  Real.sqrt ((a.map fun x => x ^ 2).sum)

/-- The spec's cosine similarity: `dot(a,b)/(‖a‖·‖b‖)`, and 0 when either
magnitude is 0. -/
noncomputable def cosSpec (a b : List ℝ) : ℝ :=
  if normSpec a = 0 ∨ normSpec b = 0 then 0
  else dotSpec a b / (normSpec a * normSpec b)

/-! ## Helper lemmas -/

lemma slookup_upsert_self (s : Store) (key : String) (row : CacheRow) :
    slookup (upsert s key row) key = some row := by
  induction s with
  | nil => simp [upsert, slookup]
  | cons p rest ih =>
    obtain ⟨k, r⟩ := p
    by_cases h : k = key
    · simp [upsert, slookup, h]
    · simp [upsert, slookup, h, ih]

lemma foldl_sumSq (l : List ℝ) (c : ℝ) :
    l.foldl (fun s a => s + a * a) c = c + (l.map fun x => x ^ 2).sum := by
  induction l generalizing c with
  | nil => simp
  | cons a l ih => simp [ih]; ring

lemma sumSq_eq_spec (l : List ℝ) : sumSq l = (l.map fun x => x ^ 2).sum := by
  simp [sumSq, foldl_sumSq]

lemma dotJs_eq_dotSpec (a : List ℝ) : ∀ b : List ℝ, dotJs a b = dotSpec a b := by
  induction a with
  | nil => intro b; simp [dotJs, dotSpec]
  | cons x xs ih =>
    intro b
    cases b with
    | nil => simp [dotJs, dotSpec, ih]
    | cons y ys => simp [dotJs, dotSpec, ih ys, dotSpec]

lemma cosArr_eq_cosSpec (a b : List ℝ) : cosArr a b = cosSpec a b := by
  simp [cosArr, cosineSimilarity, cosSpec, normSpec, sumSq_eq_spec,
    dotJs_eq_dotSpec]

lemma jsonNums_bracket123 : jsonNums "[1,2,3]" = some [(1 : ℝ), 2, 3] := by
  have h : parseAllInts (splitCommas ['1', ',', '2', ',', '3'] []) =
      some [1, 2, 3] := by decide
  simp [jsonNums, h]

lemma orderedInsert_two (a b : Ranked) (h : rankGe a b) :
    List.insertionSort rankGe [a, b] = [a, b] := by
  simp only [List.insertionSort, List.orderedInsert]
  rw [if_pos h]

lemma cos_unit_same : cosArr [1, 0] [1, 0] = 1 := by
  have h : sumSq [1, 0] = 1 := by simp [sumSq]
  simp [cosArr, cosineSimilarity, h, dotJs]

lemma cos_unit_orth : cosArr [1, 0] [0, 1] = 0 := by
  have h1 : sumSq [1, 0] = 1 := by simp [sumSq]
  have h2 : sumSq [0, 1] = 1 := by simp [sumSq]
  simp [cosArr, cosineSimilarity, h1, h2, dotJs]

lemma dotJs_pad (a : List ℝ) : ∀ b : List ℝ,
    dotJs a (b ++ List.replicate (a.length - b.length) 0) = dotJs a b := by
  induction a with
  | nil => intro b; rfl
  | cons x xs ih =>
    intro b
    cases b with
    | nil =>
      have h := ih []
      simp only [List.nil_append, List.length_nil, Nat.sub_zero] at h
      simp [List.length_cons, List.replicate_succ, dotJs, h]
    | cons y ys =>
      simp only [List.cons_append, List.length_cons, Nat.succ_sub_succ]
      simp [dotJs, ih ys]

/-! ## The claims -/

/-- C1: the local hybrid ranker scores every candidate with embedding `v`,
votes and quality score as `alpha * semantic + (1 - alpha) * metadata` with
`alpha = 0.7` and `METADATA_NORMALIZER = 200`, where `semantic` is the
spec's cosine similarity (`dot(q,v)/(‖q‖·‖v‖)`, and 0 when either magnitude
is 0) and `metadata = (votes + qualityScore) / 200`. -/
theorem c1_hybrid_score_formula (queryVec : List ℝ) (p : DecodedRow) :
    scoreRow queryVec p =
      0.7 * cosSpec queryVec p.emb +
        (1 - 0.7) * ((p.votes + p.quality_score) / 200) := by
  simp only [scoreRow, cosArr_eq_cosSpec]
  ring_nf

/-- C6: the local ranker's result has length at most `k`, is empty for
`k = 0` (the only `k ≤ 0` of the truncation bound, which the call sites
instantiate with the nonnegative constant 5), and an empty candidate set
yields the empty list rather than an error. -/
theorem c6_rank_truncation :
    (∀ (queryVec : List ℝ) (rows : List DecodedRow) (k : ℕ),
        (rankRows queryVec rows k).length ≤ k) ∧
    (∀ (queryVec : List ℝ) (rows : List DecodedRow),
        rankRows queryVec rows 0 = []) ∧
    (∀ (queryVec : List ℝ) (k : ℕ), rankRows queryVec [] k = []) := by
  refine ⟨fun qv rows k => ?_, fun qv rows => rfl, fun qv k => ?_⟩
  · simp only [rankRows, List.length_take]
    exact min_le_left _ _
  · simp [rankRows]

/-- C7: ingestion computes its embedding with `getVector(text, false)`,
which neither reads nor writes the `search_cache` store: the store it
returns is the one it was given, the embedding is independent of the store
contents, and it is exactly the provider's embedding of the normalised
text. -/
theorem c7_ingest_preserves_search_cache :
    (∀ (provider : String → List ℝ) (text : String) (store : Store),
        (ingestEmbedding provider text store).store = store) ∧
    (∀ (provider : String → List ℝ) (text : String) (s1 s2 : Store),
        (ingestEmbedding provider text s1).embedding =
          (ingestEmbedding provider text s2).embedding) ∧
    (∀ (provider : String → List ℝ) (text : String) (store : Store),
        (ingestEmbedding provider text store).embedding =
          EmbStored.vec (provider (normalize text))) :=
  ⟨fun _ _ _ => rfl, fun _ _ _ _ => rfl, fun _ _ _ => rfl⟩

/-- C9: `cosineSimilarity` is total: a non-array argument yields 0; a
missing component of the second vector is read as 0 (padding the second
vector with zeros up to the first vector's length does not change the dot
product); and every input either returns 0 through a guard or divides by a
provably nonzero product of magnitudes. -/
theorem c9_cosine_similarity_total :
    (∀ v : JsVal, cosineSimilarity JsVal.notArr v = 0 ∧
        cosineSimilarity v JsVal.notArr = 0) ∧
    (∀ a b : List ℝ,
        dotJs a b = dotJs a (b ++ List.replicate (a.length - b.length) 0)) ∧
    (∀ a b : List ℝ,
        cosineSimilarity (JsVal.arr a) (JsVal.arr b) = 0 ∨
          (Real.sqrt (sumSq a) * Real.sqrt (sumSq b) ≠ 0 ∧
            cosineSimilarity (JsVal.arr a) (JsVal.arr b) =
              dotJs a b / (Real.sqrt (sumSq a) * Real.sqrt (sumSq b)))) := by
  refine ⟨fun v => ⟨by cases v <;> rfl, by cases v <;> rfl⟩,
    fun a b => (dotJs_pad a b).symm, fun a b => ?_⟩
  by_cases h : Real.sqrt (sumSq a) = 0 ∨ Real.sqrt (sumSq b) = 0
  · left
    simp [cosineSimilarity, h]
  · right
    have h1 := (not_or.mp h).1
    have h2 := (not_or.mp h).2
    exact ⟨mul_ne_zero h1 h2, by simp [cosineSimilarity, h1, h2]⟩

/-- C10: the search handler always passes `match_count = 5` to the remote
ranking function, passes the caller's alpha through unclamped with default
0.5 when absent, and (with the remote function modelled from the spec) a
search returns at most 5 results. -/
theorem c10_match_count_fixed_alpha_unclamped :
    (∀ (e : EmbStored) (a : Option ℝ), (searchRpcArgs e a).match_count = 5) ∧
    (∀ (e : EmbStored) (a : Option ℝ),
        (searchRpcArgs e a).alpha_weight = a.getD 0.5) ∧
    (∀ (e : EmbStored) (x : ℝ), (searchRpcArgs e (some x)).alpha_weight = x) ∧
    (∀ (e : EmbStored), (searchRpcArgs e none).alpha_weight = 0.5) ∧
    (∀ (e : EmbStored) (a : Option ℝ) (qv : List ℝ)
        (table : List DecodedRow),
        (hybrid_search_prompts qv (searchRpcArgs e a).alpha_weight
            (searchRpcArgs e a).match_count table).length ≤ 5) := by
  refine ⟨fun _ _ => rfl, fun _ _ => rfl, fun _ _ => rfl, fun _ => rfl,
    fun e a qv table => ?_⟩
  simp only [hybrid_search_prompts, searchRpcArgs, List.length_take]
  exact min_le_left _ _

/-- C5 counterexample: the query `" "` is whitespace-only, yet the search
handler does not reject it (`!q` is false for a nonempty string): the
request proceeds to embed and rank. -/
theorem c5_whitespace_query_proceeds_cex :
    (searchHandler (fun _ => [1]) (some " ") none []).isSome = true ∧
    normalize " " = "" := by
  refine ⟨?_, by decide⟩
  simp [searchHandler]

/-- C5 amended: the search handler rejects exactly an absent or
empty-string `q` (the falsy strings); a whitespace-only query passes the
guard and proceeds to embed and rank, and ingestion applies no emptiness
check at all (it calls the provider for every text, the empty one
included). -/
theorem c5_guard_rejects_only_empty :
    (∀ (provider : String → List ℝ) (alphaParam : Option ℝ) (store : Store)
        (q : Option String),
        searchHandler provider q alphaParam store = none ↔
          q = none ∨ q = some "") ∧
    (∀ (provider : String → List ℝ) (text : String) (store : Store),
        (ingestEmbedding provider text store).providerCalled = true) := by
  refine ⟨fun provider alphaParam store q => ?_, fun _ _ _ => rfl⟩
  cases q with
  | none => simp [searchHandler]
  | some s =>
    by_cases h : s = ""
    · simp [searchHandler, h]
    · simp [searchHandler, h]

set_option maxRecDepth 4000 in
/-- C2 counterexample: a cached entry whose stored embedding is the string
`"[1,2,3]"` (length 3, not the provider's 768) is not treated as a miss:
the resolve operation parses it, reports a cache hit, leaves the store
unchanged, and returns the malformed vector rather than the provider's
recomputation. -/
theorem c2_malformed_entry_returned_cex :
    getVectorWithCache (fun _ => List.replicate 768 0) "q"
        [("q", ⟨"q", EmbStored.str "[1,2,3]"⟩)] =
      .ok (⟨[(1 : ℝ), 2, 3], true⟩, [("q", ⟨"q", EmbStored.str "[1,2,3]"⟩)]) ∧
    ([(1 : ℝ), 2, 3].length ≠ 768) ∧
    [(1 : ℝ), 2, 3] ≠ List.replicate 768 (0 : ℝ) := by
  refine ⟨?_, by decide, fun hEq => ?_⟩
  · have hn : normalize "q" = "q" := by decide
    simp [getVectorWithCache, md5Hex, hn, slookup, jsonNums_bracket123]
  · simpa using congrArg List.length hEq

/-- C2 amended: on a hit whose stored embedding is a string, the resolve
operation JSON-parses it and returns the parsed vector as a cache hit with
no store write and no length validation, whatever the vector's length; a
string that does not parse raises an error instead of falling back to the
provider. -/
theorem c2_string_entry_hit (provider : String → List ℝ) (text : String)
    (store : Store) (qt s : String)
    (hl : slookup store (md5Hex (normalize text)) =
      some ⟨qt, EmbStored.str s⟩) :
    (∀ v : List ℝ, jsonNums s = some v →
        getVectorWithCache provider text store = .ok (⟨v, true⟩, store)) ∧
    (jsonNums s = none →
        getVectorWithCache provider text store = .error JsonError.parse) := by
  constructor
  · intro v hv
    simp [getVectorWithCache, hl, hv]
  · intro hv
    simp [getVectorWithCache, hl, hv]

/-- C2 witness: the amended behaviour at the concrete store holding the
string `"[1,2,3]"` under the key of `"q"`. -/
theorem c2_string_entry_hit_witness :
    (∀ v : List ℝ, jsonNums "[1,2,3]" = some v →
        getVectorWithCache (fun _ => List.replicate 768 0) "q"
            [("q", ⟨"q", EmbStored.str "[1,2,3]"⟩)] =
          .ok (⟨v, true⟩, [("q", ⟨"q", EmbStored.str "[1,2,3]"⟩)])) ∧
    (jsonNums "[1,2,3]" = none →
        getVectorWithCache (fun _ => List.replicate 768 0) "q"
            [("q", ⟨"q", EmbStored.str "[1,2,3]"⟩)] =
          .error JsonError.parse) :=
  c2_string_entry_hit (fun _ => List.replicate 768 0) "q"
    [("q", ⟨"q", EmbStored.str "[1,2,3]"⟩)] "q" "[1,2,3]"
    (by
      have hn : normalize "q" = "q" := by decide
      simp [slookup, md5Hex, hn])

/-- C3: texts with equal normalisations get equal cache keys, and once the
first resolve has run, resolving the other text returns exactly the cached
embedding, leaves the store untouched and does not call the provider. -/
theorem c3_cache_hit_no_side_effects (provider : String → List ℝ)
    (t1 t2 : String) (store : Store) (h : normalize t1 = normalize t2) :
    md5Hex (normalize t1) = md5Hex (normalize t2) ∧
    getVector provider t2 true (getVector provider t1 true store).store =
      ⟨(getVector provider t1 true store).embedding,
        (getVector provider t1 true store).store, false⟩ := by
  refine ⟨by rw [h], ?_⟩
  cases hl : slookup store (md5Hex (normalize t1)) with
  | some row => simp [getVector, ← h, hl]
  | none => simp [getVector, ← h, hl, slookup_upsert_self]

/-- C3 witness: the cache-hit behaviour at the concrete text `"abc"`, a
one-element provider and the empty store. -/
theorem c3_cache_hit_no_side_effects_witness :
    md5Hex (normalize "abc") = md5Hex (normalize "abc") ∧
    getVector (fun _ => [1]) "abc" true
        (getVector (fun _ => [1]) "abc" true []).store =
      ⟨(getVector (fun _ => [1]) "abc" true []).embedding,
        (getVector (fun _ => [1]) "abc" true []).store, false⟩ :=
  c3_cache_hit_no_side_effects (fun _ => [1]) "abc" "abc" [] rfl

/-- C4 counterexample: two candidates with identical embeddings and
metadata tie exactly, and presented in the order `[id 2, id 1]` the ranker
returns `[2, 1]` — the tie is left in candidate order by sort stability,
not broken by ascending id as the claim states. -/
theorem c4_tie_input_order_cex :
    (rankRows [1, 0] [⟨2, [1, 0], 0, 0⟩, ⟨1, [1, 0], 0, 0⟩] 5).map
        Ranked.id = [2, 1] ∧
    scoreRow [1, 0] ⟨2, [1, 0], 0, 0⟩ = scoreRow [1, 0] ⟨1, [1, 0], 0, 0⟩ ∧
    ([2, 1] : List ℕ) ≠ [1, 2] := by
  refine ⟨?_, rfl, by decide⟩
  have h : rankGe ⟨2, scoreRow [1, 0] ⟨2, [1, 0], 0, 0⟩⟩
      ⟨1, scoreRow [1, 0] ⟨1, [1, 0], 0, 0⟩⟩ := le_of_eq rfl
  simp only [rankRows, List.map_cons, List.map_nil]
  rw [orderedInsert_two _ _ h]
  rfl

/-- C4 amended: the local ranker orders by score descending, with score
ties kept in candidate (input) order by sort stability; with the code's
fixed weights (0.7 semantic, 0.3 metadata) the scenario's candidates score
0.7 and 0.3 and the result order is `[1, 2]` by score alone. -/
theorem c4_sorted_desc_ties_in_input_order :
    (∀ (queryVec : List ℝ) (rows : List DecodedRow) (k : ℕ),
        List.Sorted rankGe (rankRows queryVec rows k)) ∧
    ((rankRows [1, 0] [⟨1, [1, 0], 0, 0⟩, ⟨2, [0, 1], 100, 100⟩] 5).map
        Ranked.id = [1, 2]) ∧
    scoreRow [1, 0] ⟨1, [1, 0], 0, 0⟩ = 0.7 ∧
    scoreRow [1, 0] ⟨2, [0, 1], 100, 100⟩ = 0.3 ∧
    ((rankRows [1, 0] [⟨7, [1, 0], 4, 6⟩, ⟨3, [1, 0], 4, 6⟩] 5).map
        Ranked.id = [7, 3]) := by
  have hs1 : scoreRow [1, 0] ⟨1, [1, 0], 0, 0⟩ = 0.7 := by
    norm_num [scoreRow, cos_unit_same]
  have hs2 : scoreRow [1, 0] ⟨2, [0, 1], 100, 100⟩ = 0.3 := by
    norm_num [scoreRow, cos_unit_orth]
  refine ⟨fun qv rows k => ?_, ?_, hs1, hs2, ?_⟩
  · exact List.Pairwise.sublist (List.take_sublist _ _)
      (List.sorted_insertionSort rankGe _)
  · have h : rankGe ⟨1, scoreRow [1, 0] ⟨1, [1, 0], 0, 0⟩⟩
        ⟨2, scoreRow [1, 0] ⟨2, [0, 1], 100, 100⟩⟩ := by
      show scoreRow [1, 0] ⟨2, [0, 1], 100, 100⟩ ≤
        scoreRow [1, 0] ⟨1, [1, 0], 0, 0⟩
      rw [hs1, hs2]
      norm_num
    simp only [rankRows, List.map_cons, List.map_nil]
    rw [orderedInsert_two _ _ h]
    rfl
  · have h : rankGe ⟨7, scoreRow [1, 0] ⟨7, [1, 0], 4, 6⟩⟩
        ⟨3, scoreRow [1, 0] ⟨3, [1, 0], 4, 6⟩⟩ := le_of_eq rfl
    simp only [rankRows, List.map_cons, List.map_nil]
    rw [orderedInsert_two _ _ h]
    rfl

/-- C8: the listing response is invariant under any change of the records'
`content` and `embedding` fields (it projects onto the safe columns only),
while the by-id fetch of the execute path does depend on `content`. -/
theorem c8_listing_hides_content_and_embedding :
    (∀ s1 s2 : List PromptRecord, List.Forall₂ eqExceptSecret s1 s2 →
        listPrompts s1 = listPrompts s2) ∧
    (∃ s1 s2 : List PromptRecord, ∃ i : ℕ,
        List.Forall₂ eqExceptSecret s1 s2 ∧
          fetchContentById s1 i ≠ fetchContentById s2 i) := by
  constructor
  · intro s1 s2 h
    have hmap : s1.map projectSafe = s2.map projectSafe := by
      induction h with
      | nil => rfl
      | cons hab _ ih =>
        obtain ⟨h1, h2, h3, h4, h5, h6⟩ := hab
        simp [projectSafe, h1, h2, h3, h4, h5, h6, ih]
    simp [listPrompts, hmap]
  · refine ⟨[⟨0, "d", "secret", "c", 0, 0, EmbStored.vec [], 0⟩],
      [⟨0, "d", "other", "c", 0, 0, EmbStored.vec [], 0⟩], 0, ?_, ?_⟩
    · exact List.Forall₂.cons ⟨rfl, rfl, rfl, rfl, rfl, rfl⟩ List.Forall₂.nil
    · simp [fetchContentById, List.find?]

end SearchEngine
